import Mathlib

/-!
# Verification of the distillgov ingestion engine

A shallow embedding of the core ingestion routines of the distillgov
repository (src/ingestion/), together with theorems settling the frozen
claims about the natural-language specification.

Modelling conventions:
* Python strings are Lean `String`s; operations work on `String.data`
  (a `List Char`).  All texts involved are ASCII, so ASCII-only models of
  `str.lower`, `str.strip`, `str.isdigit` and the `\s`/`\d` regex classes
  coincide with the Python behaviour on the inputs in scope.
* Fallible code (database access, HTTP) is modelled with `Except`;
  the environment (query results, HTTP responses) is passed in as an
  explicit oracle so that the control flow of the source is the only
  thing the definitions encode.
* Machine arithmetic: row counts and thresholds are far below 2^53, so
  the only float expressions in the sources (`last_count * 0.5`,
  `2.0 ** (attempt + 1)`) are exact and are embedded as exact integer
  arithmetic; the correspondence is noted at each site.
-/

namespace DistillGov

/-! ## Python string primitives (ASCII fragment) -/

/-- Whitespace class of Python (`str.strip`, regex `\s`), ASCII part. -/
def pyIsSpace (c : Char) : Bool :=
  c == ' ' || c == '\t' || c == '\n' || c == '\r' || c == '\x0b' || c == '\x0c'

/-- Model of `str.lower` on one ASCII character. -/
def asciiLower (c : Char) : Char :=
  if 'A' ≤ c && c ≤ 'Z' then Char.ofNat (c.toNat + 32) else c

/-- Model of `hay.startswith(needle)` on character lists. -/
def startsWithL : List Char → List Char → Bool
  | _, [] => true
  | [], _ :: _ => false
  | h :: hs, n :: ns => h == n && startsWithL hs ns

/-- Substring test of Python, `needle in hay` on character lists. -/
def containsSeq : List Char → List Char → Bool
  | [], needle => startsWithL [] needle
  | h :: t, needle => startsWithL (h :: t) needle || containsSeq t needle

/-- Model of `str.strip()` (ASCII whitespace) on character lists. -/
def stripChars (l : List Char) : List Char :=
  ((l.dropWhile pyIsSpace).reverse.dropWhile pyIsSpace).reverse

/-- Model of `str.isdigit()` for ASCII strings: nonempty and all digits. -/
def pyIsdigit (s : String) : Bool :=
  !s.isEmpty && s.data.all Char.isDigit

/-- Model of `int(s)` for a digit string. -/
def digitsToNat (s : String) : Nat :=
  s.data.foldl (fun n c => n * 10 + (c.toNat - '0'.toNat)) 0

/-- Python truthiness of an optional string (`if x:`): `None` and `""` are falsy. -/
def pyTruthy : Option String → Bool
  | none => false
  | some s => !(s == "")

/-! ### Substring characterisation

`containsSeq hay needle = true` iff `needle` literally occurs inside `hay`.
This ties the executable substring test used by the embedded code to the
declarative occurrence statement used by the spec-level theorems. -/

theorem startsWithL_iff (hay needle : List Char) :
    startsWithL hay needle = true ↔ ∃ rest, hay = needle ++ rest := by
  induction needle generalizing hay with
  | nil => simp [startsWithL]
  | cons n ns ih =>
    cases hay with
    | nil => simp [startsWithL]
    | cons h hs =>
      simp only [startsWithL, Bool.and_eq_true, beq_iff_eq, ih, List.cons_append,
        List.cons.injEq]
      constructor
      · rintro ⟨rfl, rest, rfl⟩
        exact ⟨rest, rfl, rfl⟩
      · rintro ⟨rest, rfl, rfl⟩
        exact ⟨rfl, rest, rfl⟩

theorem containsSeq_iff (hay needle : List Char) :
    containsSeq hay needle = true ↔ ∃ a b, hay = a ++ needle ++ b := by
  induction hay with
  | nil =>
    simp only [containsSeq, startsWithL_iff]
    constructor
    · rintro ⟨rest, h⟩
      exact ⟨[], rest, by simpa using h⟩
    · rintro ⟨a, b, h⟩
      have h2 : (a ++ needle) ++ b = [] := h.symm
      rcases List.append_eq_nil.mp h2 with ⟨h1, hb⟩
      rcases List.append_eq_nil.mp h1 with ⟨ha, hn⟩
      exact ⟨[], by simp [hn]⟩
  | cons h t ih =>
    simp only [containsSeq, Bool.or_eq_true, startsWithL_iff, ih]
    constructor
    · rintro (⟨rest, hr⟩ | ⟨a, b, hab⟩)
      · exact ⟨[], rest, by simpa using hr⟩
      · exact ⟨h :: a, b, by simp [hab]⟩
    · rintro ⟨a, b, hab⟩
      cases a with
      | nil => exact Or.inl ⟨b, by simpa using hab⟩
      | cons a0 as =>
        simp only [List.cons_append, List.cons.injEq] at hab
        exact Or.inr ⟨as, b, hab.2⟩

/-! ## TransactionalWriter (src/ingestion/db.py)

The database is modelled as an abstract state `σ` (for concrete runs: the
list of committed rows), and the execution of one parameterized statement
on one row as an oracle `exec : σ → ρ → Except ε σ` that either produces
the next state or raises.  `transaction` mirrors the `transaction` context
manager: `BEGIN` snapshots the state, `COMMIT` keeps the final
state, and on an exception the state is rolled back to the snapshot and
the exception re-raised.  `batch_execute` mirrors
`for i in range(0, len(rows), batch_size): batch = rows[i:i+batch_size]`,
wrapping each batch in its own transaction and accumulating
`total += len(batch)` after each commit. -/

/-- Model of `conn.executemany(sql, batch)`: run the statement on each row in order,
stopping at the first exception. -/
def execMany {σ ρ ε : Type} (exec : σ → ρ → Except ε σ) : σ → List ρ → Except ε σ
  | s, [] => .ok s
  | s, r :: rs =>
    match exec s r with
    | .ok s2 => execMany exec s2 rs
    | .error e => .error e

/-- The `transaction` context manager of db.py: commit on success, roll the
state back to the snapshot (and re-raise) on an exception in the body. -/
def transaction {σ ε : Type} (s : σ) (body : σ → Except ε σ) : σ × Option ε :=
  match body s with
  | .ok s2 => (s2, none)
  | .error e => (s, some e)

/-- The consecutive slices `rows[i : i + batch_size]` for
`i in range(0, len(rows), batch_size)`.  (Python raises `ValueError` on a
zero step; the claim only concerns positive batch sizes, so the `n = 0`
case is mapped to `[]`.) -/
def chunksOf {ρ : Type} (n : Nat) (l : List ρ) : List (List ρ) :=
  match l, n with
  | [], _ => []
  | _ :: _, 0 => []
  | r :: rs, m + 1 =>
    (r :: rs).take (m + 1) :: chunksOf (m + 1) ((r :: rs).drop (m + 1))
termination_by l.length
decreasing_by simp [List.length_drop]; omega

/-- The batch loop of `batch_execute`: each chunk runs inside its own
transaction; a failing chunk leaves the state as it was before the chunk
and propagates the exception; otherwise `total` grows by the chunk length. -/
def runChunks {σ ρ ε : Type} (exec : σ → ρ → Except ε σ) :
    σ → List (List ρ) → Nat → σ × Except ε Nat
  | s, [], total => (s, .ok total)
  | s, c :: cs, total =>
    match transaction s (fun st => execMany exec st c) with
    | (s2, none) => runChunks exec s2 cs (total + c.length)
    | (s2, some e) => (s2, .error e)

/-- Model of `batch_execute(conn, sql, rows, batch_size)`: returns the final
database state together with either the total row count or the
propagated exception. -/
def batch_execute {σ ρ ε : Type} (exec : σ → ρ → Except ε σ) (s : σ)
    (rows : List ρ) (batch_size : Nat) : σ × Except ε Nat :=
  runChunks exec s (chunksOf batch_size rows) 0

/-! ### Chunking lemmas -/

theorem chunksOf_nil {ρ : Type} (n : Nat) : chunksOf (ρ := ρ) n [] = [] := by
  simp [chunksOf]

theorem chunksOf_pos {ρ : Type} (n : Nat) (l : List ρ) (hl : l ≠ []) (hn : n ≠ 0) :
    chunksOf n l = l.take n :: chunksOf n (l.drop n) := by
  cases l with
  | nil => exact absurd rfl hl
  | cons r rs =>
    cases n with
    | zero => exact absurd rfl hn
    | succ m => simp [chunksOf]

theorem chunksOf_flatten {ρ : Type} (n : Nat) (hn : 0 < n) :
    ∀ l : List ρ, (chunksOf n l).flatten = l
  | [] => by simp [chunksOf_nil]
  | r :: rs => by
    rw [chunksOf_pos n (r :: rs) (by simp) (by omega)]
    have ih := chunksOf_flatten n hn ((r :: rs).drop n)
    simp only [List.flatten_cons, ih]
    exact List.take_append_drop n (r :: rs)
termination_by l => l.length
decreasing_by simp [List.length_drop]; omega

theorem chunksOf_mem_length_le {ρ : Type} (n : Nat) :
    ∀ l : List ρ, ∀ c ∈ chunksOf n l, c.length ≤ n
  | [] => by simp [chunksOf_nil]
  | r :: rs => by
    intro c hc
    by_cases hn : n = 0
    · rw [hn] at hc; simp [chunksOf] at hc
    · rw [chunksOf_pos n (r :: rs) (by simp) hn] at hc
      rcases List.mem_cons.mp hc with h | h
      · subst h; simp
      · exact chunksOf_mem_length_le n ((r :: rs).drop n) c h
termination_by l => l.length
decreasing_by simp [List.length_drop]; omega

theorem chunksOf_ne_nil_of_arg {ρ : Type} (n : Nat) (l : List ρ)
    (h : chunksOf n l ≠ []) : l ≠ [] := by
  intro hl
  subst hl
  exact h (chunksOf_nil n)

/-- Every chunk except possibly the last has exactly `n` rows. -/
theorem chunksOf_not_last_length {ρ : Type} (n : Nat) :
    ∀ l : List ρ, ∀ i c, (chunksOf n l)[i]? = some c →
      i + 1 < (chunksOf n l).length → c.length = n
  | [] => by simp [chunksOf_nil]
  | r :: rs => by
    intro i c hc hi
    by_cases hn : n = 0
    · rw [hn] at hc; simp [chunksOf] at hc
    · rw [chunksOf_pos n (r :: rs) (by simp) hn] at hc hi
      cases i with
      | zero =>
        -- the tail chunk list is nonempty, so more than n rows remain
        have htail : chunksOf n ((r :: rs).drop n) ≠ [] := by
          intro hnil
          rw [hnil] at hi
          simp at hi
        have hdrop : (r :: rs).drop n ≠ [] := chunksOf_ne_nil_of_arg n _ htail
        have hlen : n < (r :: rs).length := by
          by_contra hle
          push_neg at hle
          exact hdrop (List.drop_eq_nil_of_le hle)
        have hc0 : c = (r :: rs).take n := by
          have := hc
          simp at this
          exact this.symm
        rw [hc0]
        simpa [List.length_take] using Nat.min_eq_left (Nat.le_of_lt hlen)
      | succ j =>
        have hj : j + 1 < (chunksOf n ((r :: rs).drop n)).length := by
          simpa using Nat.lt_of_succ_lt_succ hi
        exact chunksOf_not_last_length n ((r :: rs).drop n) j c (by simpa using hc) hj
termination_by l => l.length
decreasing_by simp [List.length_drop]; omega

/-! ### Transactional execution lemmas -/

theorem execMany_append {σ ρ ε : Type} (exec : σ → ρ → Except ε σ) (a b : List ρ) :
    ∀ s, execMany exec s (a ++ b) =
      match execMany exec s a with
      | .ok s2 => execMany exec s2 b
      | .error e => .error e := by
  induction a with
  | nil => intro s; simp [execMany]
  | cons r rs ih =>
    intro s
    simp only [List.cons_append, execMany]
    cases exec s r with
    | ok s2 => exact ih s2
    | error e => rfl

theorem runChunks_ok {σ ρ ε : Type} (exec : σ → ρ → Except ε σ) :
    ∀ (cs : List (List ρ)) (s : σ) (t : Nat) (m : Nat),
      (runChunks exec s cs t).2 = .ok m →
      m = t + cs.flatten.length ∧
        execMany exec s cs.flatten = .ok (runChunks exec s cs t).1 := by
  intro cs
  induction cs with
  | nil =>
    intro s t m h
    simp only [runChunks] at h ⊢
    cases h
    simp [execMany]
  | cons c cs ih =>
    intro s t m h
    simp only [runChunks, transaction] at h ⊢
    rw [List.flatten_cons, execMany_append]
    cases hc : execMany exec s c with
    | ok s2 =>
      rw [hc] at h
      rcases ih s2 (t + c.length) m h with ⟨hm, hrest⟩
      refine ⟨by simpa [Nat.add_assoc] using hm, ?_⟩
      simp only [hc]
      simpa [hc] using hrest
    | error e => rw [hc] at h; cases h

theorem runChunks_error {σ ρ ε : Type} (exec : σ → ρ → Except ε σ) :
    ∀ (cs : List (List ρ)) (s : σ) (t : Nat) (e : ε),
      (runChunks exec s cs t).2 = .error e →
      ∃ k, ∃ hk : k < cs.length,
        execMany exec s ((cs.take k).flatten) = .ok (runChunks exec s cs t).1 ∧
        execMany exec (runChunks exec s cs t).1 (cs.get ⟨k, hk⟩) = .error e := by
  intro cs
  induction cs with
  | nil => intro s t e h; simp [runChunks] at h
  | cons c cs ih =>
    intro s t e h
    simp only [runChunks, transaction] at h ⊢
    cases hc : execMany exec s c with
    | ok s2 =>
      rw [hc] at h
      rcases ih s2 (t + c.length) e h with ⟨k, hk, hpre, hfail⟩
      refine ⟨k + 1, by simpa using Nat.succ_lt_succ hk, ?_, ?_⟩
      · rw [List.take_succ_cons, List.flatten_cons, execMany_append, hc]
        simpa [hc] using hpre
      · simpa [hc] using hfail
    | error e2 =>
      rw [hc] at h
      cases h
      exact ⟨0, by simp, by simp [execMany], by simpa using hc⟩

/-- C1: `batch_execute` splits `rows` into consecutive chunks of at most
`batch_size` rows (in order, each of exactly `batch_size` except possibly
the last), runs each chunk in its own transaction, and returns the total
number of rows executed; if a chunk fails, the earlier chunks remain
committed, the failing chunk is rolled back in full, and the exception
propagates to the caller. -/
theorem batch_execute_spec {σ ρ ε : Type} (exec : σ → ρ → Except ε σ) (s : σ)
    (rows : List ρ) (bs : Nat) (hbs : 0 < bs) :
    (chunksOf bs rows).flatten = rows ∧
    (∀ c ∈ chunksOf bs rows, c.length ≤ bs) ∧
    (∀ i c, (chunksOf bs rows)[i]? = some c →
      i + 1 < (chunksOf bs rows).length → c.length = bs) ∧
    (∀ n, (batch_execute exec s rows bs).2 = .ok n →
      n = rows.length ∧
        execMany exec s rows = .ok (batch_execute exec s rows bs).1) ∧
    (∀ e, (batch_execute exec s rows bs).2 = .error e →
      ∃ k, ∃ hk : k < (chunksOf bs rows).length,
        execMany exec s (((chunksOf bs rows).take k).flatten) =
          .ok (batch_execute exec s rows bs).1 ∧
        execMany exec (batch_execute exec s rows bs).1
          ((chunksOf bs rows).get ⟨k, hk⟩) = .error e) := by
  refine ⟨chunksOf_flatten bs hbs rows, chunksOf_mem_length_le bs rows,
    chunksOf_not_last_length bs rows, ?_, ?_⟩
  · intro n h
    rcases runChunks_ok exec (chunksOf bs rows) s 0 n h with ⟨hm, hrest⟩
    rw [chunksOf_flatten bs hbs rows] at hm hrest
    exact ⟨by simpa using hm, hrest⟩
  · intro e h
    exact runChunks_error exec (chunksOf bs rows) s 0 e h

/-- A concrete instantiation of `batch_execute_spec`: three rows, batch
size two, against a row-executor that appends each row to the committed
list and fails on row 7. -/
theorem batch_execute_spec_witness :
    (0 < 2) ∧
    ((chunksOf 2 ([1, 2, 3] : List Nat)).flatten = [1, 2, 3] ∧
    (∀ c ∈ chunksOf 2 ([1, 2, 3] : List Nat), c.length ≤ 2) ∧
    (∀ i c, (chunksOf 2 ([1, 2, 3] : List Nat))[i]? = some c →
      i + 1 < (chunksOf 2 ([1, 2, 3] : List Nat)).length → c.length = 2) ∧
    (∀ n, (batch_execute (fun (s : List Nat) (r : Nat) =>
        if r == 7 then (.error ()) else .ok (s ++ [r])) [] [1, 2, 3] 2).2 = .ok n →
      n = ([1, 2, 3] : List Nat).length ∧
        execMany (fun (s : List Nat) (r : Nat) =>
            if r == 7 then (.error ()) else .ok (s ++ [r])) [] [1, 2, 3] =
          .ok (batch_execute (fun (s : List Nat) (r : Nat) =>
            if r == 7 then (.error ()) else .ok (s ++ [r])) [] [1, 2, 3] 2).1) ∧
    (∀ e, (batch_execute (fun (s : List Nat) (r : Nat) =>
        if r == 7 then (.error ()) else .ok (s ++ [r])) [] [1, 2, 3] 2).2 = .error e →
      ∃ k, ∃ hk : k < (chunksOf 2 ([1, 2, 3] : List Nat)).length,
        execMany (fun (s : List Nat) (r : Nat) =>
            if r == 7 then (.error ()) else .ok (s ++ [r]))
          [] (((chunksOf 2 ([1, 2, 3] : List Nat)).take k).flatten) =
          .ok (batch_execute (fun (s : List Nat) (r : Nat) =>
            if r == 7 then (.error ()) else .ok (s ++ [r])) [] [1, 2, 3] 2).1 ∧
        execMany (fun (s : List Nat) (r : Nat) =>
            if r == 7 then (.error ()) else .ok (s ++ [r]))
          (batch_execute (fun (s : List Nat) (r : Nat) =>
            if r == 7 then (.error ()) else .ok (s ++ [r])) [] [1, 2, 3] 2).1
          ((chunksOf 2 ([1, 2, 3] : List Nat)).get ⟨k, hk⟩) = .error e)) :=
  ⟨by decide,
    batch_execute_spec (fun (s : List Nat) (r : Nat) =>
      if r == 7 then (.error ()) else .ok (s ++ [r])) [] [1, 2, 3] 2 (by decide)⟩

/-! ## CircuitBreaker (src/ingestion/constants.py, and the detail-sync loops)

`check_consecutive_errors(error_count, last_error)` raises `SyncError`
when `error_count >= MAX_CONSECUTIVE_ERRORS`.  The detail-sync loops
(`sync_cosponsors`, `sync_actions`, `sync_subjects`, `sync_summaries`,
`sync_member_votes`) all follow the same shape: on a successful record
they set `consecutive_errors = 0`; on an exception they increment the
counter, call `check_consecutive_errors`, and continue.  `syncLoop`
models that shape over an abstract stream of per-record outcomes. -/

def MAX_CONSECUTIVE_ERRORS : Nat := 10

/-- The exception raised by `check_consecutive_errors`; its message holds
the consecutive-error count, and `raise ... from last_error` chains the
last record-level error as the cause. -/
structure SyncError (ε : Type) where
  count : Nat
  cause : ε
  deriving Repr, DecidableEq

/-- Model of `check_consecutive_errors(error_count, last_error)`. -/
def check_consecutive_errors {ε : Type} (error_count : Nat) (last_error : ε) :
    Except (SyncError ε) Unit :=
  if MAX_CONSECUTIVE_ERRORS ≤ error_count then
    .error ⟨error_count, last_error⟩
  else .ok ()

/-- One record of a detail-sync loop either succeeds or fails with a
record-level error. -/
inductive Outcome (ε : Type) where
  | success
  | failure (e : ε)
  deriving Repr, DecidableEq

/-- The common breaker-guarded loop shape of the detail syncs: the running
counter of consecutive failures is reset to `0` by every success,
incremented by every failure, and checked against the threshold after
every failure.  Returns the final counter value when the stream is
exhausted without tripping. -/
def syncLoop {ε : Type} : Nat → List (Outcome ε) → Except (SyncError ε) Nat
  | count, [] => .ok count
  | _, .success :: rest => syncLoop 0 rest
  | count, .failure e :: rest =>
    match check_consecutive_errors (count + 1) e with
    | .error err => .error err
    | .ok _ => syncLoop (count + 1) rest

/-- The running counter of the loop after a list of outcomes, starting from `c`: the
running count of failures since the last success. -/
def failCount {ε : Type} (c : Nat) (os : List (Outcome ε)) : Nat :=
  os.foldl (fun n o => match o with | .success => 0 | .failure _ => n + 1) c

theorem failCount_append {ε : Type} (c : Nat) (a b : List (Outcome ε)) :
    failCount c (a ++ b) = failCount (failCount c a) b := by
  simp [failCount, List.foldl_append]

/-- The loop trips iff the running count of consecutive failures reaches
the threshold at some point of the stream. -/
theorem syncLoop_error_iff {ε : Type} :
    ∀ (os : List (Outcome ε)) (c : Nat),
      (∃ err, syncLoop c os = .error err) ↔
      ∃ n, 1 ≤ n ∧ n ≤ os.length ∧
        MAX_CONSECUTIVE_ERRORS ≤ failCount c (os.take n) := by
  intro os
  induction os with
  | nil =>
    intro c
    constructor
    · rintro ⟨err, h⟩
      cases h
    · rintro ⟨n, h1, h2, _⟩
      simp at h2
      omega
  | cons o rest ih =>
    intro c
    cases o with
    | success =>
      rw [show syncLoop c (.success :: rest) = syncLoop 0 rest from rfl, ih 0]
      constructor
      · rintro ⟨n, h1, h2, h3⟩
        refine ⟨n + 1, by omega, by simpa using Nat.succ_le_succ h2, ?_⟩
        simpa [List.take_succ_cons, failCount] using h3
      · rintro ⟨n, h1, h2, h3⟩
        cases n with
        | zero => omega
        | succ m =>
          cases m with
          | zero =>
            simp [List.take_succ_cons, failCount, MAX_CONSECUTIVE_ERRORS] at h3
          | succ k =>
            refine ⟨k + 1, by omega, by simpa using Nat.le_of_succ_le_succ h2, ?_⟩
            simpa [List.take_succ_cons, failCount] using h3
    | failure e =>
      by_cases htrip : MAX_CONSECUTIVE_ERRORS ≤ c + 1
      · constructor
        · intro _
          exact ⟨1, by omega, by simp, by
            simpa [List.take_succ_cons, failCount] using htrip⟩
        · intro _
          exact ⟨⟨c + 1, e⟩, by
            simp [syncLoop, check_consecutive_errors, htrip]⟩
      · have hstep : syncLoop c (.failure e :: rest) = syncLoop (c + 1) rest := by
          simp [syncLoop, check_consecutive_errors, htrip]
        rw [hstep, ih (c + 1)]
        constructor
        · rintro ⟨n, h1, h2, h3⟩
          refine ⟨n + 1, by omega, by simpa using Nat.succ_le_succ h2, ?_⟩
          simpa [List.take_succ_cons, failCount] using h3
        · rintro ⟨n, h1, h2, h3⟩
          cases n with
          | zero => omega
          | succ m =>
            cases m with
            | zero =>
              simp only [List.take_succ_cons, List.take_zero] at h3
              exact absurd (by simpa [failCount] using h3) htrip
            | succ k =>
              refine ⟨k + 1, by omega, by simpa using Nat.le_of_succ_le_succ h2, ?_⟩
              simpa [List.take_succ_cons, failCount] using h3

/-- A pure failure stream trips at exactly the point where the counter
reaches the threshold, with the error just processed as the cause. -/
theorem syncLoop_all_failures {ε : Type} :
    ∀ (es : List ε) (c : Nat), c < MAX_CONSECUTIVE_ERRORS →
      MAX_CONSECUTIVE_ERRORS ≤ c + es.length →
      ∃ ev, es[MAX_CONSECUTIVE_ERRORS - 1 - c]? = some ev ∧
        syncLoop c (es.map .failure) = .error ⟨MAX_CONSECUTIVE_ERRORS, ev⟩ := by
  intro es
  induction es with
  | nil =>
    intro c hc hlen
    simp [MAX_CONSECUTIVE_ERRORS] at hc hlen
    omega
  | cons e rest ih =>
    intro c hc hlen
    by_cases htrip : MAX_CONSECUTIVE_ERRORS ≤ c + 1
    · have hidx : MAX_CONSECUTIVE_ERRORS - 1 - c = 0 := by omega
      have hcount : c + 1 = MAX_CONSECUTIVE_ERRORS := by omega
      refine ⟨e, by simp [hidx], ?_⟩
      simp only [List.map_cons, syncLoop, check_consecutive_errors, if_pos htrip, hcount]
      simp
    · have hstep : syncLoop c ((e :: rest).map .failure) =
          syncLoop (c + 1) (rest.map .failure) := by
        simp [syncLoop, check_consecutive_errors, htrip]
      rcases ih (c + 1) (by omega) (by simp at hlen ⊢; omega) with ⟨ev, hev, herr⟩
      have hidx : MAX_CONSECUTIVE_ERRORS - 1 - c =
          (MAX_CONSECUTIVE_ERRORS - 1 - (c + 1)) + 1 := by omega
      refine ⟨ev, ?_, by rw [hstep]; exact herr⟩
      rw [hidx]
      simpa using hev

/-- C4: feeding ten or more consecutive failures into the breaker-guarded
loop raises a `SyncError` whose count is the threshold `10` and whose
cause is the error processed at the moment of the trip; a success resets
the running counter to zero; and in general the loop trips exactly when
the running count of failures since the last success reaches the
threshold, not before. -/
theorem circuit_breaker_spec {ε : Type} (es : List ε) (h10 : 10 ≤ es.length)
    (os rest : List (Outcome ε)) (c : Nat) :
    (∃ ev, es[9]? = some ev ∧
      syncLoop 0 (es.map .failure) = .error ⟨10, ev⟩) ∧
    syncLoop c (.success :: rest) = syncLoop 0 rest ∧
    ((∃ err, syncLoop 0 os = .error err) ↔
      ∃ n, 1 ≤ n ∧ n ≤ os.length ∧ 10 ≤ failCount 0 (os.take n)) := by
  refine ⟨?_, rfl, ?_⟩
  · have h := syncLoop_all_failures es 0 (by simp [MAX_CONSECUTIVE_ERRORS])
      (by simpa [MAX_CONSECUTIVE_ERRORS] using h10)
    simpa [MAX_CONSECUTIVE_ERRORS] using h
  · simpa [MAX_CONSECUTIVE_ERRORS] using syncLoop_error_iff os 0

/-- A concrete instantiation of `circuit_breaker_spec`: ten distinct
record-level errors, with the breaker tripping on the tenth. -/
theorem circuit_breaker_spec_witness :
    (10 ≤ ([1, 2, 3, 4, 5, 6, 7, 8, 9, 10] : List Nat).length) ∧
    ((∃ ev, ([1, 2, 3, 4, 5, 6, 7, 8, 9, 10] : List Nat)[9]? = some ev ∧
      syncLoop 0 (([1, 2, 3, 4, 5, 6, 7, 8, 9, 10] : List Nat).map .failure) =
        .error ⟨10, ev⟩) ∧
      syncLoop 3 (.success :: ([] : List (Outcome Nat))) = syncLoop 0 [] ∧
      ((∃ err, syncLoop 0 ([] : List (Outcome Nat)) = .error err) ↔
        ∃ n, 1 ≤ n ∧ n ≤ ([] : List (Outcome Nat)).length ∧
          10 ≤ failCount 0 (([] : List (Outcome Nat)).take n))) :=
  ⟨by decide, circuit_breaker_spec [1, 2, 3, 4, 5, 6, 7, 8, 9, 10] (by decide) [] [] 3⟩

/-! ## Status derivation (src/ingestion/sync_bills.py, determine_status)

`determine_status(action_text)` lowercases the latest-action text and
scans it for fixed keywords in a fixed order.  `None` and the empty
string (`if not action_text:`) map to `"introduced"`.  All keywords and
the action texts of interest are ASCII, so `asciiLower` models
`str.lower` exactly. -/

/-- Substring test after lowercasing, as used by `determine_status`. -/
def kwIn (l : List Char) (kw : String) : Bool :=
  containsSeq l kw.data

/-- Model of `determine_status(action_text)` from sync_bills.py. -/
def determine_status (action_text : Option String) : String :=
  match action_text with
  | none => "introduced"
  | some t =>
    if t = "" then "introduced"
    else
      let l := t.data.map asciiLower
      if kwIn l "became public law" || kwIn l "signed by president" then "enacted"
      else if kwIn l "vetoed" then "vetoed"
      else if kwIn l "passed senate" then "passed_senate"
      else if kwIn l "passed house" then "passed_house"
      else if kwIn l "referred to" && kwIn l "committee" then "in_committee"
      else "introduced"

/-- Spec-side occurrence statement: the keyword literally occurs inside
the lowercased text. -/
def OccursIn (kw : String) (l : List Char) : Prop :=
  ∃ a b, l = a ++ kw.data ++ b

theorem kwIn_iff (l : List Char) (kw : String) :
    kwIn l kw = true ↔ OccursIn kw l :=
  containsSeq_iff l kw.data

theorem kwIn_false_iff (l : List Char) (kw : String) :
    kwIn l kw = false ↔ ¬ OccursIn kw l := by
  rw [← kwIn_iff]
  constructor
  · intro h hc
    rw [h] at hc
    cases hc
  · intro h
    cases hk : kwIn l kw
    · rfl
    · exact absurd hk h

/-- C2 counterexample: a latest-action text that indicates passage by
both chambers is still mapped to the single-chamber status
`"passed_senate"`; `determine_status` has no passed-both-chambers
category at all. -/
theorem determine_status_both_chambers_counterexample :
    determine_status (some "Passed House, and then passed Senate.") = "passed_senate" := by
  decide

/-- C2 (amended): `determine_status` evaluates the keyword precedence
enacted > vetoed > passed_senate > passed_house > in_committee >
introduced, in that priority order against the lowercased latest-action
text; its codomain is exactly these six statuses — in particular there is
no passed-both-chambers status, and a text mentioning passage of both
chambers gets the first single-chamber status whose keyword matches. -/
theorem determine_status_precedence (t : String) (hne : t ≠ "") :
    ((OccursIn "became public law" (t.data.map asciiLower) ∨
        OccursIn "signed by president" (t.data.map asciiLower)) →
      determine_status (some t) = "enacted") ∧
    (¬ OccursIn "became public law" (t.data.map asciiLower) →
      ¬ OccursIn "signed by president" (t.data.map asciiLower) →
      OccursIn "vetoed" (t.data.map asciiLower) →
      determine_status (some t) = "vetoed") ∧
    (¬ OccursIn "became public law" (t.data.map asciiLower) →
      ¬ OccursIn "signed by president" (t.data.map asciiLower) →
      ¬ OccursIn "vetoed" (t.data.map asciiLower) →
      OccursIn "passed senate" (t.data.map asciiLower) →
      determine_status (some t) = "passed_senate") ∧
    (¬ OccursIn "became public law" (t.data.map asciiLower) →
      ¬ OccursIn "signed by president" (t.data.map asciiLower) →
      ¬ OccursIn "vetoed" (t.data.map asciiLower) →
      ¬ OccursIn "passed senate" (t.data.map asciiLower) →
      OccursIn "passed house" (t.data.map asciiLower) →
      determine_status (some t) = "passed_house") ∧
    (¬ OccursIn "became public law" (t.data.map asciiLower) →
      ¬ OccursIn "signed by president" (t.data.map asciiLower) →
      ¬ OccursIn "vetoed" (t.data.map asciiLower) →
      ¬ OccursIn "passed senate" (t.data.map asciiLower) →
      ¬ OccursIn "passed house" (t.data.map asciiLower) →
      OccursIn "referred to" (t.data.map asciiLower) →
      OccursIn "committee" (t.data.map asciiLower) →
      determine_status (some t) = "in_committee") ∧
    (∀ u : Option String, determine_status u ∈
      (["introduced", "enacted", "vetoed", "passed_senate", "passed_house",
        "in_committee"] : List String)) := by
  refine ⟨?_, ?_, ?_, ?_, ?_, ?_⟩
  · rintro (h | h) <;>
      simp [determine_status, hne, (kwIn_iff _ _).mpr h]
  · intro h1 h2 h3
    simp [determine_status, hne, (kwIn_false_iff _ _).mpr h1,
      (kwIn_false_iff _ _).mpr h2, (kwIn_iff _ _).mpr h3]
  · intro h1 h2 h3 h4
    simp [determine_status, hne, (kwIn_false_iff _ _).mpr h1,
      (kwIn_false_iff _ _).mpr h2, (kwIn_false_iff _ _).mpr h3,
      (kwIn_iff _ _).mpr h4]
  · intro h1 h2 h3 h4 h5
    simp [determine_status, hne, (kwIn_false_iff _ _).mpr h1,
      (kwIn_false_iff _ _).mpr h2, (kwIn_false_iff _ _).mpr h3,
      (kwIn_false_iff _ _).mpr h4, (kwIn_iff _ _).mpr h5]
  · intro h1 h2 h3 h4 h5 h6 h7
    simp [determine_status, hne, (kwIn_false_iff _ _).mpr h1,
      (kwIn_false_iff _ _).mpr h2, (kwIn_false_iff _ _).mpr h3,
      (kwIn_false_iff _ _).mpr h4, (kwIn_false_iff _ _).mpr h5,
      (kwIn_iff _ _).mpr h6, (kwIn_iff _ _).mpr h7]
  · intro u
    match u with
    | none => simp [determine_status]
    | some t2 =>
      by_cases ht2 : t2 = ""
      · simp [determine_status, ht2]
      · simp only [determine_status, if_neg ht2]
        split_ifs <;> simp

/-- A concrete instantiation of `determine_status_precedence` on an
enacted-bill action text. -/
theorem determine_status_precedence_witness :
    ("Became Public Law No. 118-43." ≠ "") ∧
    determine_status (some "Became Public Law No. 118-43.") = "enacted" :=
  ⟨by decide,
    (determine_status_precedence "Became Public Law No. 118-43." (by decide)).1
      (Or.inl ⟨[], " no. 118-43.".data, by decide⟩)⟩

/-- C6: the concrete status derivations named by the spec: a
became-public-law action text maps to `"enacted"`, a
referred-to-committee text maps to `"in_committee"`, and missing or empty
text maps to `"introduced"`. -/
theorem determine_status_examples :
    determine_status (some "Became Public Law No. 118-1") = "enacted" ∧
    determine_status (some "Referred to the Committee on...") = "in_committee" ∧
    determine_status none = "introduced" ∧
    determine_status (some "") = "introduced" := by
  refine ⟨by decide, by decide, rfl, by decide⟩

/-! ## Bill-reference parsing (src/ingestion/sync_votes.py)

`_SENATE_ISSUE_RE` is a fully anchored alternation of eight branches,
each of the form `<literal>\s*(\d+)`.  Because a digit is never a
whitespace character, each branch matches a string iff it decomposes as
the literal, then a (possibly empty) run of whitespace, then a nonempty
run of digits reaching the end — so the greedy `\s*` needs no
backtracking and `matchAlt` below decides each branch exactly.
`_parse_senate_issue` strips the input, tries the branches in the
order the regex lists them, and formats the bill id from
the first branch that matches (the digit capture is used verbatim, not
converted to an integer). -/

/-- Consume an exact literal from the front of the input. -/
def dropLit : List Char → List Char → Option (List Char)
  | [], s => some s
  | _ :: _, [] => none
  | c :: cs, d :: ds => if c == d then dropLit cs ds else none

/-- Match one regex branch `<lit>\s*(\d+)$`: returns the digit capture. -/
def matchAlt (lit : List Char) (s : List Char) : Option (List Char) :=
  match dropLit lit s with
  | none => none
  | some rest =>
    let ds := rest.dropWhile pyIsSpace
    if !ds.isEmpty && ds.all Char.isDigit then some ds else none

/-- The eight branches of `_SENATE_ISSUE_RE`, in the alternation
order of the regex, paired with the corresponding entries of `_SENATE_ISSUE_TYPES`. -/
def senateIssueAlts : List (String × String) :=
  [("H.R.", "hr"), ("S.", "s"), ("H.J.Res.", "hjres"), ("S.J.Res.", "sjres"),
   ("H.Con.Res.", "hconres"), ("S.Con.Res.", "sconres"),
   ("H.Res.", "hres"), ("S.Res.", "sres")]

/-- Try the branches in order; first match wins (regex alternation). -/
def findAlt : List (String × String) → List Char → Option (String × List Char)
  | [], _ => none
  | (lit, ty) :: rest, s =>
    match matchAlt lit.data s with
    | some ds => some (ty, ds)
    | none => findAlt rest s

/-- Model of `_parse_senate_issue(congress, issue)`: `None` for falsy input, else
strip, match against the anchored alternation, and format the bill id. -/
def _parse_senate_issue (congress : Nat) (issue : String) : Option String :=
  if issue = "" then none
  else
    match findAlt senateIssueAlts (stripChars issue.data) with
    | some (ty, ds) =>
      some (toString congress ++ "-" ++ ty ++ "-" ++ String.mk ds)
    | none => none

/-- Spec-side statement that a string denotes one of the eight enumerated
legislative reference types: after stripping it is one of the eight
literals, then optional whitespace, then one or more digits. -/
def DenotesBillRef (issue : String) : Prop :=
  ∃ lit ty ws ds, (lit, ty) ∈ senateIssueAlts ∧
    stripChars issue.data = lit.data ++ ws ++ ds ∧
    (∀ c ∈ ws, pyIsSpace c = true) ∧ ds ≠ [] ∧ (∀ c ∈ ds, c.isDigit = true)

theorem dropLit_some {lit : List Char} :
    ∀ {s rest : List Char}, dropLit lit s = some rest → s = lit ++ rest := by
  induction lit with
  | nil =>
    intro s rest h
    simp [dropLit] at h
    simp [h]
  | cons c cs ih =>
    intro s rest h
    cases s with
    | nil => simp [dropLit] at h
    | cons d ds =>
      simp only [dropLit] at h
      by_cases hcd : c == d
      · rw [if_pos hcd] at h
        have := ih h
        have hcd2 : c = d := beq_iff_eq.mp hcd
        simp [List.cons_append, ← this, hcd2]
      · rw [if_neg hcd] at h
        cases h

theorem matchAlt_some {lit s ds : List Char} (h : matchAlt lit s = some ds) :
    ∃ ws, s = lit ++ ws ++ ds ∧ (∀ c ∈ ws, pyIsSpace c = true) ∧
      ds ≠ [] ∧ (∀ c ∈ ds, c.isDigit = true) := by
  unfold matchAlt at h
  cases hd : dropLit lit s with
  | none => rw [hd] at h; cases h
  | some rest =>
    rw [hd] at h
    simp only at h
    by_cases hcond : !(rest.dropWhile pyIsSpace).isEmpty &&
        (rest.dropWhile pyIsSpace).all Char.isDigit
    · rw [if_pos hcond] at h
      have hds : ds = rest.dropWhile pyIsSpace := by
        cases h
        rfl
      rcases Bool.and_eq_true_iff.mp hcond with ⟨hne, hdig⟩
      refine ⟨rest.takeWhile pyIsSpace, ?_, ?_, ?_, ?_⟩
      · rw [dropLit_some hd, hds, List.append_assoc,
          List.takeWhile_append_dropWhile]
      · intro c hc
        exact List.mem_takeWhile_imp hc
      · rw [hds]
        intro hnil
        rw [hnil] at hne
        simp at hne
      · intro c hc
        rw [hds] at hc
        exact List.all_eq_true.mp hdig c hc
    · rw [if_neg hcond] at h
      cases h

theorem findAlt_some {alts : List (String × String)} :
    ∀ {s : List Char} {ty : String} {ds : List Char},
      findAlt alts s = some (ty, ds) →
      ∃ lit, (lit, ty) ∈ alts ∧ matchAlt lit.data s = some ds := by
  induction alts with
  | nil => intro s ty ds h; cases h
  | cons p rest ih =>
    intro s ty ds h
    obtain ⟨lit0, ty0⟩ := p
    simp only [findAlt] at h
    cases hm : matchAlt lit0.data s with
    | some ds0 =>
      rw [hm] at h
      cases h
      exact ⟨lit0, List.mem_cons_self _ _, hm⟩
    | none =>
      rw [hm] at h
      rcases ih h with ⟨lit, hmem, hmatch⟩
      exact ⟨lit, List.mem_cons_of_mem _ hmem, hmatch⟩

/-- C5: bill-reference parsing is deterministic (a pure function) and
fail-closed.  "H.R. 1234" with congress 118 parses to `118-hr-1234`,
"PN36" parses to `None`, and whenever the parser returns a bill id the
input did denote one of the eight enumerated legislative reference types
— contrapositively, every input that does not denote one of the eight
types yields `None` (and, being a total function, the parser never
throws). -/
theorem parse_senate_issue_spec (congress : Nat) (issue : String) (r : String)
    (h : _parse_senate_issue congress issue = some r) :
    DenotesBillRef issue ∧
    _parse_senate_issue 118 "H.R. 1234" = some "118-hr-1234" ∧
    _parse_senate_issue 118 "PN36" = none := by
  refine ⟨?_, by decide, by decide⟩
  unfold _parse_senate_issue at h
  by_cases hne : issue = ""
  · rw [if_pos hne] at h
    cases h
  · rw [if_neg hne] at h
    cases hf : findAlt senateIssueAlts (stripChars issue.data) with
    | none => rw [hf] at h; cases h
    | some p =>
      obtain ⟨ty, ds⟩ := p
      rcases findAlt_some hf with ⟨lit, hmem, hmatch⟩
      rcases matchAlt_some hmatch with ⟨ws, hsplit, hws, hds, hdig⟩
      exact ⟨lit, ty, ws, ds, hmem, hsplit, hws, hds, hdig⟩

/-- A concrete instantiation of `parse_senate_issue_spec` on the example named by the spec, "H.R. 1234". -/
theorem parse_senate_issue_spec_witness :
    (_parse_senate_issue 118 "H.R. 1234" = some "118-hr-1234") ∧
    DenotesBillRef "H.R. 1234" :=
  ⟨by decide,
    (parse_senate_issue_spec 118 "H.R. 1234" "118-hr-1234" (by decide)).1⟩

/-! ## Incremental-sync request construction
(src/ingestion/client.py, sync_bills.py, sync_votes.py)

`CongressClient.get_bills` / `get_votes` add `fromDateTime` to the query
parameters only when the `from_datetime` argument is truthy.
`sync_bills` computes `from_dt` once — `None` when `full`, otherwise the
stored cursor for the bills entity key — and passes it to every page
request of every bill
type.  `sync_votes` (House votes) calls `get_votes` without any
`from_datetime` argument at all, so its requests never carry the filter.
The cursor store is abstracted as `store : String → Option String`
(the behaviour of `get_last_sync` per entity key), and the pagination
offsets actually visited are abstracted as inputs, since they depend only
on the responses, not on the cursor. -/

/-- The parts of an outgoing request relevant to incremental sync. -/
structure ApiRequest where
  endpoint : String
  limit : Nat
  offset : Nat
  fromDateTime : Option String
  toDateTime : Option String
  deriving Repr, DecidableEq

/-- Model of `CongressClient.get_bills(...)`: `fromDateTime`/`toDateTime` are set
only when the corresponding argument is truthy. -/
def get_bills_request (congress : Nat) (bill_type : Option String)
    (limit offset : Nat) (from_datetime to_datetime : Option String) : ApiRequest :=
  { endpoint :=
      match bill_type with
      | some bt => "bill/" ++ toString congress ++ "/" ++ bt
      | none => "bill/" ++ toString congress
    limit := limit
    offset := offset
    fromDateTime := if pyTruthy from_datetime then from_datetime else none
    toDateTime := if pyTruthy to_datetime then to_datetime else none }

/-- Model of `CongressClient.get_votes(...)` (House roll-call votes). -/
def get_votes_request (congress : Nat) (session : Option Nat)
    (limit offset : Nat) (from_datetime to_datetime : Option String) : ApiRequest :=
  { endpoint :=
      match session with
      | some s => "house-vote/" ++ toString congress ++ "/" ++ toString s
      | none => "house-vote/" ++ toString congress
    limit := limit
    offset := offset
    fromDateTime := if pyTruthy from_datetime then from_datetime else none
    toDateTime := if pyTruthy to_datetime then to_datetime else none }

/-- The page requests issued by `sync_bills(congress, bill_types, full)`:
`from_dt` is read from the cursor store once (unless `full`) and passed
unchanged to every page request of every bill type. -/
def sync_bills_requests (store : String → Option String) (congress : Nat)
    (bill_types : List String) (full : Bool)
    (offsets : String → List Nat) : List ApiRequest :=
  let from_dt := if full then none else store ("bills-" ++ toString congress)
  (bill_types.map fun bt =>
    (offsets bt).map fun off =>
      get_bills_request congress (some bt) 250 off from_dt none).flatten

/-- The page requests issued by `sync_votes(congress, ...)`: the House
votes sync never consults the cursor store and never passes a
`from_datetime` argument. -/
def sync_votes_requests (_store : String → Option String) (congress : Nat)
    (offsets : List Nat) : List ApiRequest :=
  offsets.map fun off => get_votes_request congress none 250 off none none

/-- C3 counterexample: even with a cursor store that returns a timestamp
for every entity key (in particular for any votes entity), the House
page requests of the votes sync carry no `fromDateTime` filter. -/
theorem sync_votes_ignores_cursor_counterexample :
    (fun _ => some "2025-01-15T00:00:00Z" : String → Option String) "votes-118"
      = some "2025-01-15T00:00:00Z" ∧
    (sync_votes_requests (fun _ => some "2025-01-15T00:00:00Z") 118 [0, 250]).map
      ApiRequest.fromDateTime = [none, none] := by
  exact ⟨rfl, rfl⟩

/-- C3 (amended): for the bills sync, if the cursor store returns a
(nonempty) timestamp `T` for the entity then every page request carries
`fromDateTime = T`, and if it returns no cursor then no page request
carries a filter; the House votes sync, however, issues page requests
with no `fromDateTime` regardless of the contents of the cursor store. -/
theorem incremental_filter_spec (store : String → Option String) (congress : Nat)
    (bill_types : List String) (offsets : String → List Nat)
    (T : String) (hT : T ≠ "") :
    (store ("bills-" ++ toString congress) = some T →
      (sync_bills_requests store congress bill_types false offsets).all
        (fun r => r.fromDateTime == some T) = true) ∧
    (store ("bills-" ++ toString congress) = none →
      (sync_bills_requests store congress bill_types false offsets).all
        (fun r => r.fromDateTime == none) = true) ∧
    (∀ offs : List Nat,
      (sync_votes_requests store congress offs).all
        (fun r => r.fromDateTime == none) = true) := by
  refine ⟨?_, ?_, ?_⟩
  · intro hstore
    simp only [sync_bills_requests, if_neg (by simp : ¬False), hstore,
      List.all_eq_true, List.mem_flatten, List.mem_map]
    rintro r ⟨_, ⟨bt, _, rfl⟩, hr⟩
    rcases List.mem_map.mp hr with ⟨off, _, rfl⟩
    have htruthy : pyTruthy (some T) = true := by
      simp [pyTruthy, hT]
    simp [get_bills_request, htruthy]
  · intro hstore
    simp only [sync_bills_requests, hstore, List.all_eq_true, List.mem_flatten,
      List.mem_map]
    rintro r ⟨_, ⟨bt, _, rfl⟩, hr⟩
    rcases List.mem_map.mp hr with ⟨off, _, rfl⟩
    simp [get_bills_request, pyTruthy]
  · intro offs
    simp only [sync_votes_requests, List.all_eq_true, List.mem_map]
    rintro r ⟨off, _, rfl⟩
    simp [get_votes_request, pyTruthy]

/-- A concrete instantiation of `incremental_filter_spec`: a store whose
bills cursor is `2025-01-15T00:00:00Z`. -/
theorem incremental_filter_spec_witness :
    ("2025-01-15T00:00:00Z" ≠ "") ∧
    (sync_bills_requests
        (fun k => if k == "bills-118" then some "2025-01-15T00:00:00Z" else none)
        118 ["hr", "s"] false (fun _ => [0, 250])).all
          (fun r => r.fromDateTime == some "2025-01-15T00:00:00Z") = true :=
  ⟨by decide,
    (incremental_filter_spec
      (fun k => if k == "bills-118" then some "2025-01-15T00:00:00Z" else none)
      118 ["hr", "s"] (fun _ => [0, 250]) "2025-01-15T00:00:00Z" (by decide)).1
      (by decide)⟩

/-! ## QualityGate (src/ingestion/quality.py)

The three check families are read-only queries against the store.  The
database environment is abstracted as: the outcome of opening the
read-only connection, a row-count query per table, a non-null-count query
per (table, column), and the `sync_meta` rows.  Each family wraps its
per-item queries in `try/except`, turning a query error into a failed
`CheckResult` (or a skip, for the regression family) — but the
`get_conn(read_only=True)` call at the top of each family is *not*
guarded, so a connection-open failure propagates.

`detail` strings in the source carry formatted counts and exception
messages; no claim depends on their exact text, so they are modelled by
short fixed descriptions (or the error message where the source uses it).

Floating point: the only float expression is `current < last_count * 0.5`
with integer row counts; for counts below 2^53 (binary64 exactness) this
is exactly `2 * current < last_count`, which is how it is embedded. -/

/-- One quality-check verdict (the `CheckResult` dataclass). -/
structure CheckResult where
  table : String
  check : String
  passed : Bool
  detail : String
  deriving Repr, DecidableEq

/-- Table floor list `_MIN_ROWS`: minimum expected rows per table. -/
def _MIN_ROWS : List (String × Int) :=
  [("members", 500), ("bills", 100), ("votes", 50), ("member_votes", 100),
   ("bill_cosponsors", 50), ("bill_actions", 50), ("bill_subjects", 50),
   ("committees", 10), ("committee_members", 10), ("zip_districts", 40000)]

/-- Column list `_NOT_ALL_NULL`: columns that must not be entirely null. -/
def _NOT_ALL_NULL : List (String × List String) :=
  [("members", ["party", "state", "chamber"]),
   ("bills", ["title", "status"]),
   ("votes", ["vote_date", "chamber"])]

/-- The `entity_to_table` mapping inside `_check_row_count_regression`. -/
def entity_to_table (base : String) : Option String :=
  if base == "members" then some "members"
  else if base == "bills" then some "bills"
  else if base == "votes" then some "votes"
  else none

/-- Model of `entity.split("-")[0] if "-" in entity else entity`. -/
def entityBase (entity : String) : String :=
  if entity.data.contains '-' then String.mk (entity.data.takeWhile (fun c => !(c == '-')))
  else entity

/-- The verdict for one entity of the regression check:
`current < last_count * 0.5` (exact integer form) with `last_count > 0`
flags a failure. -/
def regressionResult (table : String) (last current : Int) : CheckResult :=
  if 0 < last ∧ 2 * current < last then
    ⟨table, "regression", false, "current count below half of last sync"⟩
  else
    ⟨table, "regression", true, "current count vs last sync ok"⟩

/-- The body of `_check_row_count_regression` after the connection is
open: a failing `sync_meta` query yields no results; entities that do not
map to a tracked table, and tables whose count query fails, are skipped. -/
def _check_row_count_regression
    (metaRows : Except String (List (String × Int)))
    (counts : String → Except String Int) : List CheckResult :=
  match metaRows with
  | .error _ => []
  | .ok rows =>
    rows.filterMap fun p =>
      match entity_to_table (entityBase p.1) with
      | none => none
      | some table =>
        match counts table with
        | .error _ => none
        | .ok current => some (regressionResult table p.2 current)

/-- The database environment seen by the quality checks. -/
structure DbEnv where
  connect : Except String Unit
  tableCount : String → Except String Int
  nonNullCount : String → String → Except String Int
  metaRows : Except String (List (String × Int))

/-- Model of `_check_row_counts()`: per-table minimum-row-count check; a query
error becomes a failed result, but a connection failure propagates. -/
def _check_row_counts (env : DbEnv) : Except String (List CheckResult) :=
  match env.connect with
  | .error e => .error e
  | .ok _ => .ok <| _MIN_ROWS.map fun p =>
      match env.tableCount p.1 with
      | .ok count => ⟨p.1, "min_rows", decide (p.2 ≤ count), "row count vs minimum"⟩
      | .error e => ⟨p.1, "min_rows", false, e⟩

/-- Model of `_check_null_columns()`: per-column not-all-null check; a query error
becomes a failed result, but a connection failure propagates. -/
def _check_null_columns (env : DbEnv) : Except String (List CheckResult) :=
  match env.connect with
  | .error e => .error e
  | .ok _ => .ok (_NOT_ALL_NULL.map (fun p =>
      p.2.map fun col =>
        match env.nonNullCount p.1 col with
        | .ok nonNull =>
          (⟨p.1, "not_all_null:" ++ col, decide (0 < nonNull),
            "non-null count"⟩ : CheckResult)
        | .error e => ⟨p.1, "not_all_null:" ++ col, false, e⟩)).flatten

/-- Model of `_check_row_count_regression()` at connection level. -/
def _check_row_count_regression_env (env : DbEnv) : Except String (List CheckResult) :=
  match env.connect with
  | .error e => .error e
  | .ok _ => .ok (_check_row_count_regression env.metaRows env.tableCount)

/-- Model of `run_all_checks()`: run the three families in order, concatenating
their results; an uncaught exception in one family propagates. -/
def run_all_checks (env : DbEnv) : Except String (List CheckResult) := do
  let a ← _check_row_counts env
  let b ← _check_null_columns env
  let c ← _check_row_count_regression_env env
  pure (a ++ b ++ c)

/-- Model of `check_and_report()`: `True` iff no result failed. -/
def check_and_report (env : DbEnv) : Except String Bool :=
  match run_all_checks env with
  | .error e => .error e
  | .ok results =>
    let failures := results.filter fun r => !r.passed
    .ok (failures.length == 0)

/-! ### C7: row-count regression -/

/-- C7: with a positive stored last-sync count `L` and current count `C`,
the regression check emits exactly one verdict for the entity, and that
verdict fails precisely when `C < 0.5 * L`; in particular 400 of 1000
fails and 600 of 1000 passes. -/
theorem row_count_regression_spec (L C : Int) (hL : 0 < L) :
    _check_row_count_regression (.ok [("bills-118", L)]) (fun _ => .ok C) =
      [regressionResult "bills" L C] ∧
    ((regressionResult "bills" L C).passed = false ↔ (C : ℚ) < (L : ℚ) * (1 / 2)) ∧
    (_check_row_count_regression (.ok [("bills-118", 1000)]) (fun _ => .ok 400)).map
      CheckResult.passed = [false] ∧
    (_check_row_count_regression (.ok [("bills-118", 1000)]) (fun _ => .ok 600)).map
      CheckResult.passed = [true] := by
  have key : (C : ℚ) < (L : ℚ) * (1 / 2) ↔ 2 * C < L := by
    rw [show (L : ℚ) * (1 / 2) = (L : ℚ) / 2 from by ring,
      lt_div_iff₀ (by norm_num : (0 : ℚ) < 2), mul_comm]
    exact_mod_cast Iff.rfl
  refine ⟨rfl, ?_, by decide, by decide⟩
  by_cases h : 0 < L ∧ 2 * C < L
  · rw [regressionResult, if_pos h]
    exact iff_of_true rfl (key.mpr h.2)
  · rw [regressionResult, if_neg h]
    have h2 : ¬ (2 * C < L) := fun hlt => h ⟨hL, hlt⟩
    exact iff_of_false (by simp) (fun hq => h2 (key.mp hq))

/-- A concrete instantiation of `row_count_regression_spec` at the 1000-vs-400 example of the spec. -/
theorem row_count_regression_spec_witness :
    (0 < (1000 : Int)) ∧
    ((regressionResult "bills" 1000 400).passed = false ↔
      ((400 : Int) : ℚ) < ((1000 : Int) : ℚ) * (1 / 2)) :=
  ⟨by decide, (row_count_regression_spec 1000 400 (by decide)).2.1⟩

/-! ### C9: check_and_report -/

/-- C9 counterexample: if opening the read-only connection fails (for
example the database file is missing), `check_and_report` propagates the
exception instead of returning a boolean — and a connection failure in the first family prevents the other families from running. -/
theorem check_and_report_raises_counterexample :
    check_and_report
      ⟨.error "unable to open database file", fun _ => .ok 0,
        fun _ _ => .ok 0, .ok []⟩ = .error "unable to open database file" ∧
    run_all_checks
      ⟨.error "unable to open database file", fun _ => .ok 0,
        fun _ _ => .ok 0, .ok []⟩ = .error "unable to open database file" :=
  ⟨rfl, rfl⟩

theorem check_and_report_of_run {env : DbEnv} {rs : List CheckResult}
    (h : run_all_checks env = .ok rs) :
    check_and_report env = .ok ((rs.filter fun r => !r.passed).length == 0) := by
  rw [check_and_report, h]

theorem failures_length_iff (rs : List CheckResult) :
    (((rs.filter fun r => !r.passed).length == 0) = true) ↔
      ∀ r ∈ rs, r.passed = true := by
  simp only [beq_iff_eq, List.length_eq_zero, List.filter_eq_nil_iff]
  constructor
  · intro h r hr
    have := h r hr
    simpa using this
  · intro h r hr
    simp [h r hr]

/-- C9 (amended): provided the read-only connection opens, `check_and_report`
returns a boolean (never an exception) that is `True` iff every emitted
`CheckResult` passed, and the three families all run to completion with
their full result lists (10 min-row results and 7 not-all-null results,
whatever the individual queries do) — per-query failures in one family
never prevent the other families from running. -/
theorem check_and_report_spec (env : DbEnv) (hc : env.connect = .ok ()) :
    ∃ rcs ncs rgs b,
      _check_row_counts env = .ok rcs ∧ rcs.length = 10 ∧
      _check_null_columns env = .ok ncs ∧ ncs.length = 7 ∧
      _check_row_count_regression_env env = .ok rgs ∧
      run_all_checks env = .ok (rcs ++ ncs ++ rgs) ∧
      check_and_report env = .ok b ∧
      (b = true ↔ ∀ r ∈ rcs ++ ncs ++ rgs, r.passed = true) := by
  have h1 : _check_row_counts env = .ok (_MIN_ROWS.map fun p =>
      match env.tableCount p.1 with
      | .ok count =>
        (⟨p.1, "min_rows", decide (p.2 ≤ count), "row count vs minimum"⟩ : CheckResult)
      | .error e => ⟨p.1, "min_rows", false, e⟩) := by
    rw [_check_row_counts, hc]
  have h2 : _check_null_columns env = .ok ((_NOT_ALL_NULL.map (fun p =>
      p.2.map fun col =>
        match env.nonNullCount p.1 col with
        | .ok nonNull =>
          (⟨p.1, "not_all_null:" ++ col, decide (0 < nonNull),
            "non-null count"⟩ : CheckResult)
        | .error e => ⟨p.1, "not_all_null:" ++ col, false, e⟩)).flatten) := by
    rw [_check_null_columns, hc]
  have h3 : _check_row_count_regression_env env =
      .ok (_check_row_count_regression env.metaRows env.tableCount) := by
    rw [_check_row_count_regression_env, hc]
  have hrun : run_all_checks env = .ok ((_MIN_ROWS.map fun p =>
      match env.tableCount p.1 with
      | .ok count =>
        (⟨p.1, "min_rows", decide (p.2 ≤ count), "row count vs minimum"⟩ : CheckResult)
      | .error e => ⟨p.1, "min_rows", false, e⟩) ++
      (_NOT_ALL_NULL.map (fun p =>
        p.2.map fun col =>
          match env.nonNullCount p.1 col with
          | .ok nonNull =>
            (⟨p.1, "not_all_null:" ++ col, decide (0 < nonNull),
              "non-null count"⟩ : CheckResult)
          | .error e => ⟨p.1, "not_all_null:" ++ col, false, e⟩)).flatten ++
      _check_row_count_regression env.metaRows env.tableCount) := by
    rw [run_all_checks, h1, h2, h3]
    rfl
  exact ⟨_, _, _, _, h1, by simp [_MIN_ROWS], h2, by simp [_NOT_ALL_NULL], h3,
    hrun, check_and_report_of_run hrun, failures_length_iff _⟩

/-- A concrete instantiation of `check_and_report_spec` on an environment
whose connection opens but whose table queries all fail. -/
theorem check_and_report_spec_witness :
    (DbEnv.connect
      ⟨.ok (), fun _ => .error "no such table", fun _ _ => .ok 1, .error "boom"⟩
        = .ok ()) ∧
    ∃ rcs ncs rgs b,
      _check_row_counts
        ⟨.ok (), fun _ => .error "no such table", fun _ _ => .ok 1, .error "boom"⟩
          = .ok rcs ∧ rcs.length = 10 ∧
      _check_null_columns
        ⟨.ok (), fun _ => .error "no such table", fun _ _ => .ok 1, .error "boom"⟩
          = .ok ncs ∧ ncs.length = 7 ∧
      _check_row_count_regression_env
        ⟨.ok (), fun _ => .error "no such table", fun _ _ => .ok 1, .error "boom"⟩
          = .ok rgs ∧
      run_all_checks
        ⟨.ok (), fun _ => .error "no such table", fun _ _ => .ok 1, .error "boom"⟩
          = .ok (rcs ++ ncs ++ rgs) ∧
      check_and_report
        ⟨.ok (), fun _ => .error "no such table", fun _ _ => .ok 1, .error "boom"⟩
          = .ok b ∧
      (b = true ↔ ∀ r ∈ rcs ++ ncs ++ rgs, r.passed = true) :=
  ⟨rfl, check_and_report_spec
    ⟨.ok (), fun _ => .error "no such table", fun _ _ => .ok 1, .error "boom"⟩ rfl⟩

/-! ## HTTP retry loop (src/ingestion/client.py, CongressClient._get)

The loop runs `for attempt in range(_MAX_RETRIES + 1)`.  A non-retryable
status returns (2xx/3xx) or raises (other 4xx) immediately; a retryable
status sleeps `wait = _RETRY_BACKOFF_BASE ** (attempt + 1)` seconds
before the next attempt — except on the last attempt, after which
`raise_for_status()` on the final response propagates the error.  Only
when the status is exactly 429 is a digit-valued `Retry-After` header
honoured, via `wait = max(wait, int(retry_after))`.  `2.0 ** (attempt+1)`
is an exact small power of two, embedded as a natural number of seconds.
Responses per attempt are an oracle `resp : Nat → HttpResponse`; the
second component of the result collects the waits slept, in order. -/

/-- The response fields the retry loop inspects. -/
structure HttpResponse where
  status : Nat
  retryAfter : Option String
  body : String
  deriving Repr, DecidableEq

def _RETRYABLE_STATUS : List Nat := [429, 500, 502, 503, 504]

def _MAX_RETRIES : Nat := 3

/-- Model of `response.raise_for_status()`: raises exactly on 4xx/5xx. -/
def raise_for_status (r : HttpResponse) : Except Nat Unit :=
  if 400 ≤ r.status then .error r.status else .ok ()

/-- The backoff actually slept before the next attempt:
`wait = 2.0 ** (attempt + 1)`, raised to a digit-valued `Retry-After`
only when the status is 429. -/
def computeWait (attempt : Nat) (r : HttpResponse) : Nat :=
  let wait := 2 ^ (attempt + 1)
  if r.status == 429 then
    match r.retryAfter with
    | some ra => if pyIsdigit ra then max wait (digitsToNat ra) else wait
    | none => wait
  else wait

/-- Body of the retry loop of `CongressClient._get` over the remaining
attempt numbers, accumulating the waits slept (most recent first). -/
def _get_loop (resp : Nat → HttpResponse) :
    List Nat → List Nat → Except Nat String × List Nat
  | [], waits => (.error (resp _MAX_RETRIES).status, waits.reverse)
  | a :: rest, waits =>
    if (resp a).status ∈ _RETRYABLE_STATUS then
      if a < _MAX_RETRIES then
        _get_loop resp rest (computeWait a (resp a) :: waits)
      else
        _get_loop resp rest waits
    else
      match raise_for_status (resp a) with
      | .error e => (.error e, waits.reverse)
      | .ok _ => (.ok (resp a).body, waits.reverse)

/-- Model of `CongressClient._get` against a per-attempt response oracle. -/
def pyGet (resp : Nat → HttpResponse) : Except Nat String × List Nat :=
  _get_loop resp (List.range (_MAX_RETRIES + 1)) []

/-- C8 counterexample: a 503 response carrying `Retry-After: 100` is
retryable, but the loop sleeps only the computed backoff of 2 seconds
before the next attempt — the explicit retry-after signal is honoured
only for status 429, not for every retryable status. -/
theorem retry_after_ignored_on_503_counterexample :
    (pyGet (fun _ => ⟨503, some "100", ""⟩)).2 = [2, 4, 8] ∧
    (2 < 100) ∧
    (pyGet (fun _ => ⟨503, some "100", ""⟩)).1 = .error 503 := by
  refine ⟨rfl, by decide, rfl⟩

/-- C8 (amended): on persistently retryable statuses the client retries
exactly 3 times, sleeping `computeWait` before each retry, where the wait
is always at least the exponential backoff `2^(attempt+1)` seconds; a
digit-valued `Retry-After` is honoured (wait `= max(backoff, N)`, hence
`≥ N`) only when the status is 429, while any other retryable status
sleeps exactly the backoff; and once the final retry fails the error
propagates to the caller. -/
theorem retry_policy_spec (resp : Nat → HttpResponse)
    (hall : ∀ a, a ≤ _MAX_RETRIES → (resp a).status ∈ _RETRYABLE_STATUS)
    (a : Nat) (r1 r2 : HttpResponse) (ra : String)
    (h429 : r1.status = 429) (hra : r1.retryAfter = some ra)
    (hdig : pyIsdigit ra = true) (hn : r2.status ≠ 429) :
    (pyGet resp).2 =
      [computeWait 0 (resp 0), computeWait 1 (resp 1), computeWait 2 (resp 2)] ∧
    (∀ i r, 2 ^ (i + 1) ≤ computeWait i r) ∧
    computeWait a r1 = max (2 ^ (a + 1)) (digitsToNat ra) ∧
    digitsToNat ra ≤ computeWait a r1 ∧
    computeWait a r2 = 2 ^ (a + 1) ∧
    (pyGet resp).1 = .error (resp _MAX_RETRIES).status := by
  have e0 := hall 0 (by norm_num [_MAX_RETRIES])
  have e1 := hall 1 (by norm_num [_MAX_RETRIES])
  have e2 := hall 2 (by norm_num [_MAX_RETRIES])
  have e3 := hall 3 (by norm_num [_MAX_RETRIES])
  have hloop : pyGet resp =
      (.error (resp _MAX_RETRIES).status,
        [computeWait 0 (resp 0), computeWait 1 (resp 1), computeWait 2 (resp 2)]) := by
    show _get_loop resp [0, 1, 2, 3] [] = _
    simp [_get_loop, e0, e1, e2, e3, _MAX_RETRIES]
  have hmax : computeWait a r1 = max (2 ^ (a + 1)) (digitsToNat ra) := by
    simp [computeWait, h429, hra, hdig]
  refine ⟨by rw [hloop], ?_, hmax, ?_, ?_, by rw [hloop]⟩
  · intro i r
    rw [computeWait]
    split_ifs
    · cases hrac : r.retryAfter with
      | none => simp
      | some s =>
        dsimp only
        split_ifs
        · exact Nat.le_max_left _ _
        · simp
    · simp
  · rw [hmax]
    exact Nat.le_max_right _ _
  · have hbeq : (r2.status == 429) = false := beq_eq_false_iff_ne.mpr hn
    simp [computeWait, hbeq]

/-- A concrete instantiation of `retry_policy_spec`: every attempt
answers 429 with `Retry-After: 5`. -/
theorem retry_policy_spec_witness :
    (∀ a, a ≤ _MAX_RETRIES →
      ((fun _ => ⟨429, some "5", ""⟩ : Nat → HttpResponse) a).status
        ∈ _RETRYABLE_STATUS) ∧
    ((pyGet (fun _ => ⟨429, some "5", ""⟩)).2 =
      [computeWait 0 ⟨429, some "5", ""⟩, computeWait 1 ⟨429, some "5", ""⟩,
        computeWait 2 ⟨429, some "5", ""⟩] ∧
    (∀ i r, 2 ^ (i + 1) ≤ computeWait i r) ∧
    computeWait 0 (⟨429, some "5", ""⟩ : HttpResponse) =
      max (2 ^ (0 + 1)) (digitsToNat "5") ∧
    digitsToNat "5" ≤ computeWait 0 (⟨429, some "5", ""⟩ : HttpResponse) ∧
    computeWait 0 (⟨503, some "100", ""⟩ : HttpResponse) = 2 ^ (0 + 1) ∧
    (pyGet (fun _ => ⟨429, some "5", ""⟩)).1 =
      .error ((fun _ => ⟨429, some "5", ""⟩ : Nat → HttpResponse) _MAX_RETRIES).status) :=
  ⟨fun a _ => by simp [_RETRYABLE_STATUS],
    retry_policy_spec (fun _ => ⟨429, some "5", ""⟩)
      (fun a _ => by simp [_RETRYABLE_STATUS])
      0 ⟨429, some "5", ""⟩ ⟨503, some "100", ""⟩ "5"
      rfl rfl (by decide) (by decide)⟩

/-! ## SyncCursorStore reads (src/ingestion/sync_meta.py)

`get_last_sync(entity)` wraps the entire read — opening the read-only
connection, querying `sync_meta`, and extracting the row — in
`try/except Exception: return None`.  The environment is abstracted as
the outcome of the connection open and of the `fetchone()` call (which
yields no row, or a row whose single column may itself be NULL). -/

/-- The environment seen by one `get_last_sync` call. -/
structure CursorEnv where
  connect : Except String Unit
  fetchRow : Except String (Option (Option String))

/-- Model of `get_last_sync(entity)`: `row[0] if row else None`, with every
exception converted to `None`. -/
def get_last_sync (env : CursorEnv) : Option String :=
  match env.connect with
  | .error _ => none
  | .ok _ =>
    match env.fetchRow with
    | .error _ => none
    | .ok none => none
    | .ok (some v) => v

/-- The environment of an entity that has never been synced: the
connection opens and the query returns no row. -/
def neverSynced : CursorEnv := ⟨.ok (), .ok none⟩

/-- C10: whenever any exception occurs while reading the cursor store —
the connection fails to open or the query fails — `get_last_sync` returns
`None` instead of propagating, which is indistinguishable from the
never-synced state and therefore makes the caller fall back to a full
fetch (page requests without a `fromDateTime` filter). -/
theorem get_last_sync_swallows_errors (env : CursorEnv)
    (h : (∃ e, env.connect = .error e) ∨ (∃ e, env.fetchRow = .error e)) :
    get_last_sync env = none ∧
    get_last_sync env = get_last_sync neverSynced ∧
    (sync_bills_requests (fun _ => get_last_sync env) 118 ["hr"] false
      (fun _ => [0])).all (fun r => r.fromDateTime == none) = true := by
  have hnone : get_last_sync env = none := by
    obtain ⟨e, hc⟩ | ⟨e, hf⟩ := h
    · rw [get_last_sync, hc]
    · rw [get_last_sync, hf]
      cases hcn : env.connect <;> rfl
  refine ⟨hnone, by rw [hnone]; rfl, ?_⟩
  simp [sync_bills_requests, get_bills_request, pyTruthy, hnone]

/-- A concrete instantiation of `get_last_sync_swallows_errors`: the
database file is missing, so the read-only connection fails to open. -/
theorem get_last_sync_swallows_errors_witness :
    (CursorEnv.connect ⟨.error "unable to open database file", .ok none⟩ =
      .error "unable to open database file") ∧
    (get_last_sync ⟨.error "unable to open database file", .ok none⟩ = none ∧
    get_last_sync ⟨.error "unable to open database file", .ok none⟩ =
      get_last_sync neverSynced ∧
    (sync_bills_requests
      (fun _ => get_last_sync ⟨.error "unable to open database file", .ok none⟩)
      118 ["hr"] false (fun _ => [0])).all
        (fun r => r.fromDateTime == none) = true) :=
  ⟨rfl, get_last_sync_swallows_errors ⟨.error "unable to open database file", .ok none⟩
    (Or.inl ⟨"unable to open database file", rfl⟩)⟩

end DistillGov
